import Mathlib

/-!
Verification of dairin0d's blender-2.8-scripts addon suite.

Shallow embedding of the host-independent logic of the repository:
the `ModeStack` navigation state machine (`dairin0d/utils_userinput.py`),
the orbit-snap / turntable-Euler / walk-physics math of the
`mouselook_navigation` addon, the clipboard matrix round-trip and the
Copy/Cut operator control flow of the `cut_copy_paste` addon, the
`clamp_angle` helper (`dairin0d/utils_math.py`) and the `fletcher`
checksum (`dairin0d/utils_text.py`).

Floating-point values are modelled as exact reals (or rationals where
the code is algebraic), following the usual idealisation of float
arithmetic; Python dicts and sets are modelled by functions and lists.
-/

namespace BlenderScripts

/-- Result of a `keychecker('ON|TOGGLE')` call inside `ModeStack.update`:
either the string `'TOGGLE'`, or a truthy/falsy "key is on" value. -/
inductive KeyResult where
  | toggle : KeyResult
  | state : Bool → KeyResult
deriving DecidableEq

/-- The `ModeStack` object.  `keys` is the (ordered) list of mode names of
the `self.keys` dict; `prev_state` models the `self.prev_state` dict
(missing entries read as 0 = `false`); `transitions` is the transition
set, kept as a list with membership semantics. -/
structure ModeStack where
  keys : List String
  prev_state : String → Bool
  transitions : List String
  mode : String
  default_mode : String
  stack : List String
  search_direction : Int

/-- `ModeStack.__init__` (`mode = None` and `search_direction = -1` are the
Python defaults). -/
def ModeStack.mk' (keys : List String) (transitions : List String)
    (default_mode : String) (mode : Option String)
    (search_direction : Int) : ModeStack :=
  { keys := keys
    prev_state := fun _ => false
    transitions := transitions
    mode := mode.getD default_mode
    default_mode := default_mode
    stack := [default_mode]
    search_direction := search_direction }

/-- `ModeStack.transition_allowed`. -/
def ModeStack.transition_allowed (transitions : List String)
    (mode0 mode1 : String) : Prop :=
  (mode0 ++ ":" ++ mode1) ∈ transitions ∨ (mode1 ++ ":" ++ mode0) ∈ transitions

instance (ts : List String) (m0 m1 : String) :
    Decidable (ModeStack.transition_allowed ts m0 m1) := by
  unfold ModeStack.transition_allowed; infer_instance

/-- `ModeStack.remove` (Python `list.remove` of the first occurrence,
guarded by a membership test). -/
def ModeStack.remove (s : ModeStack) (name : String) : ModeStack :=
  { s with stack := s.stack.erase name }

/-- `ModeStack.find_transition`: scan the stack (direction given by
`search_direction`) for the first mode reachable from the current one;
on success make it current and truncate the stack above it. -/
def ModeStack.find_transition (s : ModeStack) : ModeStack :=
  match (if s.search_direction < 0 then (List.range s.stack.length).reverse
      else List.range s.stack.length).find? (fun i =>
      decide (ModeStack.transition_allowed s.transitions s.mode (s.stack.getD i ""))) with
  | none => s
  | some i =>
    { s with mode := s.stack.getD i "", stack := s.stack.take (i + 1) }

/-- One iteration of the `for name, keychecker in self.keys.items()` loop
body of `ModeStack.update`, given the keychecker's result. -/
def ModeStack.step_key (s : ModeStack) (name : String) (res : KeyResult) : ModeStack :=
  let delta_on : Int :=
    match res with
    | .toggle => if s.mode ≠ name then 1 else -1
    | .state b => (if b then 1 else 0) - (if s.prev_state name then 1 else 0)
  let s1 : ModeStack :=
    match res with
    | .toggle => s
    | .state b => { s with prev_state := fun n => if n = name then b else s.prev_state n }
  if 0 < delta_on then
    if ModeStack.transition_allowed s1.transitions s1.mode name then
      let s2 := s1.remove name
      { s2 with stack := s2.stack ++ [name], mode := name }
    else s1
  else if delta_on < 0 then
    if s1.mode ≠ name then s1.remove name else s1.find_transition
  else s1

/-- `ModeStack.update`: one pass over all keycheckers, whose results for
this event are given by `f`. -/
def ModeStack.update (s : ModeStack) (f : String → KeyResult) : ModeStack :=
  s.keys.foldl (fun acc name => acc.step_key name (f name)) s

/-- A sequence of `update()` calls (one per event). -/
def ModeStack.run_updates (s : ModeStack) : List (String → KeyResult) → ModeStack
  | [] => s
  | f :: fs => (s.update f).run_updates fs

/-- A sequence of individual key steps. -/
def ModeStack.run_keys (s : ModeStack) : List (String × KeyResult) → ModeStack
  | [] => s
  | (n, r) :: rest => (s.step_key n r).run_keys rest

/-- The trace of current modes observed along a sequence of key steps. -/
def ModeStack.mode_trace (s : ModeStack) : List (String × KeyResult) → List String
  | [] => [s.mode]
  | (n, r) :: rest => s.mode :: (s.step_key n r).mode_trace rest

/-- The navigation modes of the mouselook addon
(`MouselookNavigation_InputSettings.modes`). -/
def mouselook_modes : List String := ["ORBIT", "PAN", "DOLLY", "ZOOM", "FLY", "FPS"]

/-- The mode stack built by `MouselookNavigation.invoke`:
`ModeStack(mode_keys, self.allowed_transitions, self.default_mode, 'NONE')`,
where `mode_keys` maps each navigation mode name to its keychecker. -/
def mouselook_mode_stack (allowed_transitions : List String)
    (default_mode : String) : ModeStack :=
  ModeStack.mk' mouselook_modes allowed_transitions default_mode (some "NONE") (-1)

/-- Python's binary `%` on reals (floored modulo). -/
noncomputable def pymod (x y : ℝ) : ℝ := x - y * ⌊x / y⌋

/-- `clamp_angle(ang, pi)`: reduce modulo `twoPi = 2*pi`, then shift down by
one turn when the representative exceeds `pi`. -/
noncomputable def clamp_angle (ang : ℝ) (pi : ℝ) : ℝ :=
  if pymod ang (2.0 * pi) > pi then pymod ang (2.0 * pi) - 2.0 * pi
  else pymod ang (2.0 * pi)

/-- Python's built-in `round` on reals: round half to even. -/
noncomputable def pyround (x : ℝ) : ℤ :=
  if Int.fract x < 1 / 2 then ⌊x⌋
  else if 1 / 2 < Int.fract x then ⌊x⌋ + 1
  else if Even ⌊x⌋ then ⌊x⌋ else ⌊x⌋ + 1

/-- A turntable Euler triple (`self.euler`). -/
structure Euler where
  x : ℝ
  y : ℝ
  z : ℝ

/-- `MouselookNavigation.snap_rotation(n)`: each Euler component is replaced
by `round(component / grid) * grid` with `grid = pi*0.5 / n`. -/
noncomputable def snap_rotation (n : ℕ) (e : Euler) : Euler :=
  let grid := Real.pi * 0.5 / n
  ⟨pyround (e.x / grid) * grid, pyround (e.y / grid) * grid, pyround (e.z / grid) * grid⟩

/-- `math.copysign(a, b)` on reals (sign of real 0 is positive). -/
noncomputable def copysign (a b : ℝ) : ℝ := if b < 0 then -|a| else |a|

/-- `MouselookNavigation.change_euler(ex, ey, ez, always_up)`:
`ex` is added to pitch (`euler.x`), `ey` to yaw (`euler.z`), and roll
(`euler.y`) is decayed by the factor `2 ** (-abs(ez))` — towards
`copysign(pi, y)` when `always_up and up.z < 0 or abs(y) > pi*0.5`,
towards `0` otherwise. -/
noncomputable def change_euler (e : Euler) (ex ey ez : ℝ) (always_up : Bool)
    (up_z : ℝ) : Euler :=
  let x := e.x + ex
  let z := e.z + ey
  let y :=
    if (always_up = true ∧ up_z < 0) ∨ Real.pi * 0.5 < |e.y| then
      (copysign Real.pi e.y) -
        ((copysign Real.pi e.y) - e.y) * (2:ℝ) ^ (-|ez|)
    else e.y * (2:ℝ) ^ (-|ez|)
  ⟨x, y, z⟩

/-- A 3-vector of exact rationals (floats idealised). -/
structure Vec3 where
  x : ℚ
  y : ℚ
  z : ℚ
deriving DecidableEq

/-- The evolution of `self.velocity` in one `calc_abs_speed` step.
With `use_gravity` false the velocity is reset to `Vector()`.  With it true:
`velocity.z` is damped by `0.999` and incremented by `gravity * dt`
(`gravity = -9.91`); if the jump key is held (`is_jump`), a negative
`velocity.z` is damped by `0.9`, `jump_height` is added when the key was not
held on the previous frame, and `(abs(gravity) + jump_height) * dt` is added;
finally, if the `apply_collisions` raycast pass (host geometry, supplied
here as the oracle `collided`) reports a collision, the velocity is reset to
`Vector()`. -/
def calc_velocity (use_gravity : Bool) (velocity : Vec3) (dt jump_height : ℚ)
    (is_jump prev_jump : Bool) (collided : Bool) : Vec3 :=
  if use_gravity then
    let z1 := velocity.z * 0.999 + (-9.91) * dt
    let z2 :=
      if is_jump then
        let za := if z1 < 0 then z1 * 0.9 else z1
        let zb := if prev_jump = false then za + jump_height else za
        zb + (|(-9.91 : ℚ)| + jump_height) * dt
      else z1
    if collided then ⟨0, 0, 0⟩ else ⟨velocity.x, velocity.y, z2⟩
  else ⟨0, 0, 0⟩

/-- `int.from_bytes(bytes, 'little')` over a list of byte values. -/
def from_bytes_le : List ℕ → ℕ
  | [] => 0
  | b :: rest => b + 256 * from_bytes_le rest

/-- The summation loop of `fletcher`: take the next `nbytes`-sized block,
add it to `sum1` mod `m`, accumulate into `sum2` mod `m`.  (`fletcher`
always calls this with `nbytes ≥ 1`; the `0` case only serves totality.) -/
def fletcher_go (nbytes m : ℕ) : List ℕ → ℕ → ℕ → ℕ × ℕ
  | [], sum1, sum2 => (sum1, sum2)
  | b :: rest, sum1, sum2 =>
    match nbytes with
    | 0 => (sum1, sum2)
    | nb + 1 =>
      let block := from_bytes_le ((b :: rest).take (nb + 1))
      let s1 := (sum1 + block) % m
      fletcher_go (nb + 1) m ((b :: rest).drop (nb + 1)) s1 ((sum2 + s1) % m)
  termination_by data _ _ => data.length
  decreasing_by simp [List.length_drop]; omega

/-- `fletcher(data, n)` for a byte string `data`. -/
def fletcher (data : List ℕ) (n : ℕ) : ℕ :=
  let nbytes := min (max (n / 16) 1) 4
  let m := 2 ^ (8 * nbytes) - 1
  let s := fletcher_go nbytes m data 0 0
  s.1 + s.2 * (m + 1)

/-- `ClipboardUtil.serialize_matrix`: emit the first three rows
(the last row is always `[0,0,0,1]`, so it is dropped to save space). -/
def serialize_matrix (matrix : List (List ℚ)) : List (List ℚ) :=
  matrix.take 3

/-- `ClipboardUtil.deserialize_matrix`: rebuild a 4x4 matrix, appending the
`(0,0,0,1)` row when only 3 rows are given; the trailing assertion demands
4 rows with the first of length 4. -/
def deserialize_matrix (rows : List (List ℚ)) : Option (List (List ℚ)) :=
  let matrix := if rows.length = 4 then rows else rows ++ [[0, 0, 0, 1]]
  if matrix.length = 4 ∧ (matrix.headD []).length = 4 then some matrix else none

/-- A scene object: identity plus its `type` string (`'MESH'`, ...). -/
structure BObject where
  id : ℕ
  type : String
deriving DecidableEq

/-- The object types for which `OperatorCopy` has a
`preprocess_<type>` method. -/
def copy_supported_types : List String :=
  ["MESH", "CURVE", "SURFACE", "META", "GPENCIL", "ARMATURE"]

/-- `getattr(self, f"preprocess_{active_obj.type.lower()}", None)` is not
`None` for `OperatorCopy`. -/
def has_preprocess (t : String) : Bool := copy_supported_types.contains t

/-- `ClipboardUtil.filter_edit_mode_objects`: keep only objects of the
active object's type, always include the active object, and in Grease
Pencil mode keep only the active object (no multi-object edit). -/
def filter_edit_mode_objects (objs : Finset BObject) (active_obj : BObject) :
    Finset BObject :=
  let objs_of_type := objs.filter (fun o => o.type = active_obj.type)
  if active_obj.type ≠ "GPENCIL" then insert active_obj objs_of_type
  else {active_obj}

/-- The context seen by the Copy/Cut operators. -/
structure CopyContext where
  mode : String
  selected_objects : Finset BObject
  active_object : BObject

inductive Report where
  | ERROR | WARNING | INFO
deriving DecidableEq

inductive OpResult where
  | FINISHED | CANCELLED
deriving DecidableEq

/-- Observable outcome of `OperatorCopy.execute`: the report issued, the
clipboard payload written (if any), and the returned status set. -/
structure CopyOutcome where
  report : Report
  clipboard : Option (Finset BObject)
  result : OpResult
deriving DecidableEq

/-- `OperatorCopy.poll`: `context.mode in addon.preferences.modes`. -/
def OperatorCopy_poll (ctx_mode : String) (pref_modes : List String) : Bool :=
  pref_modes.contains ctx_mode

/-- `OperatorCopy.execute`: in a non-OBJECT mode, filter the selection and
fail with an error if the active type has no preprocess method; fail with
a warning if nothing is selected; otherwise write the clipboard and
finish.  (The `COPY_LINKED -> COPY` downgrade only affects the payload
format and is not observable here.) -/
def OperatorCopy_execute (ctx : CopyContext) : CopyOutcome :=
  if ctx.mode ≠ "OBJECT" then
    let objs := filter_edit_mode_objects ctx.selected_objects ctx.active_object
    if ¬ has_preprocess ctx.active_object.type then ⟨.ERROR, none, .CANCELLED⟩
    else if objs = ∅ then ⟨.WARNING, none, .CANCELLED⟩
    else ⟨.INFO, some objs, .FINISHED⟩
  else
    if ctx.selected_objects = ∅ then ⟨.WARNING, none, .CANCELLED⟩
    else ⟨.INFO, some ctx.selected_objects, .FINISHED⟩

/-- A `bpy.ops` call made by `OperatorCut.execute`. -/
inductive BpyOp where
  | view3d_copy (mode : String)
  | object_delete
  | mesh_delete (type : String)
  | curve_delete (type : String)
  | mball_delete_metaelems
  | gpencil_delete (type : String)
  | armature_delete
  | ed_undo_push
deriving DecidableEq

/-- `ClipboardUtil.get_mesh_delete_type`: pick the deletion granularity
from `tool_settings.mesh_select_mode` (vertex, edge, face flags). -/
def get_mesh_delete_type (mesh_select_mode : Bool × Bool × Bool) : String :=
  if mesh_select_mode.1 then "VERT"
  else if mesh_select_mode.2.1 then "EDGE"
  else "FACE"

/-- The deletion step selected by `OperatorCut.execute`: `process_object`
in OBJECT mode, otherwise `getattr(self, f"process_{active_obj.type.lower()}",
None)` — `none` models an object type without a `process_<type>` method. -/
def cut_process (ctx_mode : String) (active_type : String)
    (mesh_select_mode : Bool × Bool × Bool) : Option BpyOp :=
  if ctx_mode ≠ "OBJECT" then
    match active_type with
    | "MESH" => some (.mesh_delete (get_mesh_delete_type mesh_select_mode))
    | "CURVE" => some (.curve_delete "VERT")
    | "SURFACE" => some (.curve_delete "VERT")
    | "META" => some .mball_delete_metaelems
    | "GPENCIL" => some (.gpencil_delete "POINTS")
    | "ARMATURE" => some .armature_delete
    | _ => none
  else some .object_delete

/-- `OperatorCut.poll`: `bpy.ops.view3d.copy.poll()`. -/
def OperatorCut_poll (ctx_mode : String) (pref_modes : List String) : Bool :=
  OperatorCopy_poll ctx_mode pref_modes

/-- `OperatorCut.execute` as its trace of `bpy.ops` calls: invoke the copy
operator with `mode='COPY'`, run the per-type delete step, push an undo
step, and return `{'FINISHED'}`.  `none` models the crash on an object
type without a `process_<type>` method. -/
def OperatorCut_execute (ctx_mode : String) (active_type : String)
    (mesh_select_mode : Bool × Bool × Bool) : Option (List BpyOp × OpResult) :=
  match cut_process ctx_mode active_type mesh_select_mode with
  | some op => some ([.view3d_copy "COPY", op, .ed_undo_push], .FINISHED)
  | none => none

theorem ModeStack.find_transition_spec (s : ModeStack) :
    s.find_transition.transitions = s.transitions ∧
    s.find_transition.keys = s.keys ∧
    (s.find_transition.mode = s.mode ∨
      (ModeStack.transition_allowed s.transitions s.mode s.find_transition.mode ∧
        s.find_transition.mode ∈ s.stack)) := by
  rcases hfind : (if s.search_direction < 0 then (List.range s.stack.length).reverse
      else List.range s.stack.length).find? (fun i =>
        decide (ModeStack.transition_allowed s.transitions s.mode (s.stack.getD i ""))) with
    _ | i
  · unfold ModeStack.find_transition
    rw [hfind]
    exact ⟨rfl, rfl, Or.inl rfl⟩
  · have hp := List.find?_some hfind
    have hmem := List.mem_of_find?_eq_some hfind
    have hi : i < s.stack.length := by
      split at hmem <;> simp only [List.mem_reverse, List.mem_range] at hmem <;> exact hmem
    have hget : s.stack.getD i "" ∈ s.stack := by
      rw [List.getD_eq_getElem s.stack "" hi]
      exact List.getElem_mem hi
    unfold ModeStack.find_transition
    rw [hfind]
    exact ⟨rfl, rfl, Or.inr ⟨of_decide_eq_true hp, hget⟩⟩

theorem ModeStack.step_key_spec (s : ModeStack) (name : String) (res : KeyResult) :
    (s.step_key name res).transitions = s.transitions ∧
    (s.step_key name res).keys = s.keys ∧
    ((s.step_key name res).mode = s.mode ∨
      (ModeStack.transition_allowed s.transitions s.mode (s.step_key name res).mode ∧
        ((s.step_key name res).mode = name ∨ (s.step_key name res).mode ∈ s.stack))) := by
  cases res with
  | toggle =>
    by_cases hmn : s.mode = name
    · have hstep : s.step_key name .toggle = s.find_transition := by
        unfold ModeStack.step_key; simp [hmn]
      rw [hstep]
      rcases s.find_transition_spec with ⟨ht, hk, hm⟩
      refine ⟨ht, hk, ?_⟩
      rcases hm with h | ⟨h1, h2⟩
      · exact Or.inl h
      · exact Or.inr ⟨h1, Or.inr h2⟩
    · by_cases hall : ModeStack.transition_allowed s.transitions s.mode name
      · have hstep : s.step_key name .toggle =
            { s with stack := s.stack.erase name ++ [name], mode := name } := by
          unfold ModeStack.step_key; simp [hmn, hall, ModeStack.remove]
        rw [hstep]
        exact ⟨rfl, rfl, Or.inr ⟨hall, Or.inl rfl⟩⟩
      · refine ⟨?_, ?_, Or.inl ?_⟩ <;>
          unfold ModeStack.step_key <;> simp [hmn, hall]
  | state b =>
    cases b with
    | true =>
      by_cases hp : s.prev_state name
      · refine ⟨?_, ?_, Or.inl ?_⟩ <;> unfold ModeStack.step_key <;> simp [hp]
      · by_cases hall : ModeStack.transition_allowed s.transitions s.mode name
        · have hstep : s.step_key name (.state true) =
              { s with prev_state := fun n => if n = name then true else s.prev_state n,
                       stack := s.stack.erase name ++ [name], mode := name } := by
            unfold ModeStack.step_key; simp [hp, hall, ModeStack.remove]
          rw [hstep]
          exact ⟨rfl, rfl, Or.inr ⟨hall, Or.inl rfl⟩⟩
        · refine ⟨?_, ?_, Or.inl ?_⟩ <;>
            unfold ModeStack.step_key <;> simp [hp, hall]
    | false =>
      by_cases hp : s.prev_state name
      · by_cases hmn : s.mode = name
        · have hstep : s.step_key name (.state false) =
              ModeStack.find_transition
                { s with prev_state := fun n => if n = name then false else s.prev_state n } := by
            unfold ModeStack.step_key; simp [hp, hmn]
          rw [hstep]
          rcases ModeStack.find_transition_spec
              { s with prev_state := fun n => if n = name then false else s.prev_state n } with
            ⟨ht, hk, hm⟩
          refine ⟨ht, hk, ?_⟩
          rcases hm with h | ⟨h1, h2⟩
          · exact Or.inl h
          · exact Or.inr ⟨h1, Or.inr h2⟩
        · refine ⟨?_, ?_, Or.inl ?_⟩ <;>
            unfold ModeStack.step_key <;> simp [hp, hmn, ModeStack.remove]
      · refine ⟨?_, ?_, Or.inl ?_⟩ <;> unfold ModeStack.step_key <;> simp [hp]

theorem ModeStack.run_keys_append (s : ModeStack) (l1 l2 : List (String × KeyResult)) :
    s.run_keys (l1 ++ l2) = (s.run_keys l1).run_keys l2 := by
  induction l1 generalizing s with
  | nil => rfl
  | cons p rest ih =>
    obtain ⟨n, r⟩ := p
    simp [ModeStack.run_keys, ih]

theorem ModeStack.foldl_step_eq_run_keys (f : String → KeyResult) :
    ∀ (ks : List String) (s : ModeStack),
      ks.foldl (fun acc name => acc.step_key name (f name)) s =
        s.run_keys (ks.map fun n => (n, f n)) := by
  intro ks
  induction ks with
  | nil => intro s; rfl
  | cons k rest ih => intro s; simp [List.foldl, ModeStack.run_keys, ih]

theorem ModeStack.update_eq_run_keys (s : ModeStack) (f : String → KeyResult) :
    s.update f = s.run_keys (s.keys.map fun n => (n, f n)) := by
  unfold ModeStack.update
  exact ModeStack.foldl_step_eq_run_keys f s.keys s

theorem ModeStack.run_keys_keys (s : ModeStack) (l : List (String × KeyResult)) :
    (s.run_keys l).keys = s.keys := by
  induction l generalizing s with
  | nil => rfl
  | cons p rest ih =>
    obtain ⟨n, r⟩ := p
    rw [ModeStack.run_keys, ih, (s.step_key_spec n r).2.1]

theorem ModeStack.run_updates_eq_run_keys (s : ModeStack)
    (fs : List (String → KeyResult)) :
    s.run_updates fs =
      s.run_keys ((fs.map fun f => s.keys.map fun n => (n, f n)).flatten) := by
  induction fs generalizing s with
  | nil => rfl
  | cons f rest ih =>
    have hk : (s.update f).keys = s.keys := by
      rw [ModeStack.update_eq_run_keys]; exact ModeStack.run_keys_keys _ _
    rw [ModeStack.run_updates, ih, hk, List.map_cons, List.flatten_cons,
      ModeStack.run_keys_append, ← ModeStack.update_eq_run_keys]

theorem ModeStack.mode_trace_head (s : ModeStack) (evs : List (String × KeyResult)) :
    (s.mode_trace evs).head? = some s.mode := by
  rcases evs with _ | ⟨⟨n, r⟩, rest⟩ <;> rfl

theorem ModeStack.run_keys_transitions (s : ModeStack) (l : List (String × KeyResult)) :
    (s.run_keys l).transitions = s.transitions := by
  induction l generalizing s with
  | nil => rfl
  | cons p rest ih =>
    obtain ⟨n, r⟩ := p
    rw [ModeStack.run_keys, ih, (s.step_key_spec n r).1]

theorem ModeStack.mode_trace_chain (evs : List (String × KeyResult)) (s : ModeStack) :
    List.Chain' (fun a b => a = b ∨ ModeStack.transition_allowed s.transitions a b)
      (s.mode_trace evs) := by
  induction evs generalizing s with
  | nil => simp [ModeStack.mode_trace]
  | cons p rest ih =>
    obtain ⟨n, r⟩ := p
    rw [ModeStack.mode_trace]
    rw [List.chain'_cons']
    constructor
    · intro b hb
      rw [ModeStack.mode_trace_head] at hb
      cases hb
      rcases (s.step_key_spec n r).2.2 with h | ⟨h, _⟩
      · exact Or.inl h.symm
      · exact Or.inr h
    · have := ih (s.step_key n r)
      rwa [(s.step_key_spec n r).1] at this

/-- C1: every mode change of the `ModeStack` state machine is sanctioned by
`transition_allowed` (membership of `'mode0:mode1'` or `'mode1:mode0'` in the
transition set).  Part 1: a single key step either keeps the mode, or moves
to the key's own mode / falls back to a mode already on the stack, in either
case only when the transition is allowed (and the transition set itself never
changes).  Part 2: any sequence of `update()` calls is exactly a sequence of
such key steps (one per key of the `keys` dict, per update).  Part 3: hence
along the mode trace of any reachable sequence of steps, consecutive modes
are either equal or related by an allowed transition — in particular this
holds for the mouselook navigation stack over ORBIT/PAN/DOLLY/ZOOM/FLY/FPS. -/
theorem modestack_transitions_always_allowed :
    (∀ (s : ModeStack) (name : String) (res : KeyResult),
        (s.step_key name res).transitions = s.transitions ∧
        ((s.step_key name res).mode = s.mode ∨
          (ModeStack.transition_allowed s.transitions s.mode (s.step_key name res).mode ∧
            ((s.step_key name res).mode = name ∨ (s.step_key name res).mode ∈ s.stack)))) ∧
    (∀ (s : ModeStack) (fs : List (String → KeyResult)),
        s.run_updates fs =
          s.run_keys ((fs.map fun f => s.keys.map fun n => (n, f n)).flatten)) ∧
    (∀ (s : ModeStack) (evs : List (String × KeyResult)),
        List.Chain' (fun a b => a = b ∨ ModeStack.transition_allowed s.transitions a b)
          (s.mode_trace evs)) ∧
    (∀ (ts : List String) (dm : String) (evs : List (String × KeyResult)),
        List.Chain' (fun a b => a = b ∨ ModeStack.transition_allowed ts a b)
          ((mouselook_mode_stack ts dm).mode_trace evs)) := by
  refine ⟨?_, ?_, ?_, ?_⟩
  · intro s name res
    exact ⟨(s.step_key_spec name res).1, (s.step_key_spec name res).2.2⟩
  · intro s fs
    exact s.run_updates_eq_run_keys fs
  · intro s evs
    exact ModeStack.mode_trace_chain evs s
  · intro ts dm evs
    exact ModeStack.mode_trace_chain evs (mouselook_mode_stack ts dm)

/-- C9: the constructor's invariant "default mode should always be in the
stack" is violated by the code: with keys `D`, `A`, transition set `{D:A}`
and default mode `D`, pressing both keys (the `D` press is ignored because
`D:D` is not an allowed transition, the `A` press switches the mode to `A`)
and then releasing `D` makes `update()` remove the default mode `D` from the
stack, even though `D` is the default mode. -/
theorem modestack_default_mode_leaves_stack :
    "D" ∉ ((ModeStack.mk' ["D", "A"] ["D:A"] "D" none (-1)).run_updates
        [fun n => KeyResult.state (decide (n = "D" ∨ n = "A")),
         fun n => KeyResult.state (decide (n = "A"))]).stack ∧
    ((ModeStack.mk' ["D", "A"] ["D:A"] "D" none (-1)).run_updates
        [fun n => KeyResult.state (decide (n = "D" ∨ n = "A")),
         fun n => KeyResult.state (decide (n = "A"))]).default_mode = "D" := by
  exact ⟨by decide, by decide⟩

/-! ## clamp_angle (dairin0d/utils_math.py)

Floats are modelled as exact reals.  Python's `%` on floats is floored
modulo: `x % y = x - y * floor(x / y)` (for `y > 0` the result lies in
`[0, y)`), which is the behaviour the function's own comment documents. -/

theorem pymod_eq_fract (x y : ℝ) (hy : y ≠ 0) :
    pymod x y = y * Int.fract (x / y) := by
  unfold pymod
  have hxy : y * (x / y) = x := by field_simp
  rw [Int.fract, mul_sub, hxy]

/-- C8: for `pi > 0`, `clamp_angle(ang, pi)` lies in the half-open interval
`(-pi, pi]` and differs from `ang` by an integer multiple of `2*pi`. -/
theorem clamp_angle_canonical (ang p : ℝ) (hp : 0 < p) :
    clamp_angle ang p ∈ Set.Ioc (-p) p ∧
      ∃ k : ℤ, ang - clamp_angle ang p = k * (2 * p) := by
  have hT : (0:ℝ) < 2.0 * p := by norm_num [hp]
  have ha : pymod ang (2.0 * p) = (2.0 * p) * Int.fract (ang / (2.0 * p)) :=
    pymod_eq_fract ang (2.0 * p) hT.ne'
  have h0 : 0 ≤ pymod ang (2.0 * p) := by
    rw [ha]
    exact mul_nonneg hT.le (Int.fract_nonneg _)
  have h1 : pymod ang (2.0 * p) < 2.0 * p := by
    rw [ha]
    nlinarith [Int.fract_lt_one (ang / (2.0 * p))]
  have hsub : ang - pymod ang (2.0 * p) = (2.0 * p) * ⌊ang / (2.0 * p)⌋ := by
    unfold pymod; ring
  unfold clamp_angle
  split_ifs with hgt
  · refine ⟨⟨by linarith, by linarith⟩, ⟨⌊ang / (2.0 * p)⌋ + 1, ?_⟩⟩
    push_cast
    nlinarith [hsub]
  · refine ⟨⟨by linarith, by linarith⟩, ⟨⌊ang / (2.0 * p)⌋, ?_⟩⟩
    nlinarith [hsub]

/-- Witness for C8 at `ang = 5`, `pi = 1`. -/
theorem clamp_angle_canonical_witness :
    (0:ℝ) < 1 ∧
      (clamp_angle 5 1 ∈ Set.Ioc (-(1:ℝ)) 1 ∧
        ∃ k : ℤ, (5:ℝ) - clamp_angle 5 1 = k * (2 * 1)) :=
  ⟨by norm_num, clamp_angle_canonical 5 1 (by norm_num)⟩

/-! ## Orbit snapping and turntable Euler integration
(mouselook_navigation/__init__.py) -/

theorem pyround_dist (x : ℝ) : |x - pyround x| ≤ 1 / 2 := by
  have hfr : Int.fract x = x - ⌊x⌋ := rfl
  have h0 := Int.fract_nonneg x
  have h1 := Int.fract_lt_one x
  rw [hfr] at h0 h1
  unfold pyround
  split_ifs with ha hb hc <;> rw [abs_le] <;> push_cast <;>
    constructor <;> linarith

theorem pyround_nearest (x : ℝ) (j : ℤ) : |x - pyround x| ≤ |x - j| := by
  by_cases hj : j = pyround x
  · rw [hj]
  · have hne : pyround x - j ≠ 0 := sub_ne_zero.mpr fun h => hj h.symm
    have hint : (1:ℤ) ≤ |pyround x - j| := Int.one_le_abs hne
    have h1 : (1:ℝ) ≤ |(pyround x : ℝ) - (j : ℝ)| := by
      exact_mod_cast hint
    have hd := pyround_dist x
    have htri : |(pyround x : ℝ) - (j : ℝ)| ≤ |x - pyround x| + |x - j| := by
      have h := abs_sub_le ((pyround x : ℝ)) x (j : ℝ)
      rwa [abs_sub_comm ((pyround x : ℝ)) x] at h
    linarith

theorem snap_coord_nearest (g : ℝ) (hg : 0 < g) (t : ℝ) (j : ℤ) :
    |t - pyround (t / g) * g| ≤ |t - j * g| := by
  have key : ∀ k : ℤ, t - k * g = g * (t / g - k) := by
    intro k
    have : g * (t / g) = t := mul_div_cancel₀ t hg.ne'
    nlinarith [this]
  rw [key, key, abs_mul, abs_mul, abs_of_pos hg]
  exact mul_le_mul_of_nonneg_left (pyround_nearest (t / g) j) hg.le

/-- C2: for `n ≥ 1`, `snap_rotation(n)` maps each Euler component to an
integer multiple of `pi/(2*n)` that is nearest to it among all such
multiples. -/
theorem snap_rotation_quantizes (n : ℕ) (hn : 1 ≤ n) (e : Euler) :
    ∃ kx ky kz : ℤ,
      snap_rotation n e =
        ⟨kx * (Real.pi / (2 * n)), ky * (Real.pi / (2 * n)), kz * (Real.pi / (2 * n))⟩ ∧
      (∀ j : ℤ, |e.x - kx * (Real.pi / (2 * n))| ≤ |e.x - j * (Real.pi / (2 * n))|) ∧
      (∀ j : ℤ, |e.y - ky * (Real.pi / (2 * n))| ≤ |e.y - j * (Real.pi / (2 * n))|) ∧
      (∀ j : ℤ, |e.z - kz * (Real.pi / (2 * n))| ≤ |e.z - j * (Real.pi / (2 * n))|) := by
  have hgrid : Real.pi * 0.5 / (n : ℝ) = Real.pi / (2 * n) := by
    rw [show (0.5:ℝ) = 1 / 2 by norm_num]
    ring
  have hn0 : (0:ℝ) < (n : ℝ) := by exact_mod_cast hn
  have hg : 0 < Real.pi / (2 * n) := by
    apply div_pos Real.pi_pos
    positivity
  refine ⟨pyround (e.x / (Real.pi / (2 * n))), pyround (e.y / (Real.pi / (2 * n))),
    pyround (e.z / (Real.pi / (2 * n))), ?_, ?_, ?_, ?_⟩
  · unfold snap_rotation
    rw [hgrid]
  · intro j; exact snap_coord_nearest _ hg e.x j
  · intro j; exact snap_coord_nearest _ hg e.y j
  · intro j; exact snap_coord_nearest _ hg e.z j

/-- Witness for C2 at `n = 1` and the zero Euler triple. -/
theorem snap_rotation_quantizes_witness :
    1 ≤ 1 ∧
      ∃ kx ky kz : ℤ,
        snap_rotation 1 ⟨0, 0, 0⟩ =
          ⟨kx * (Real.pi / (2 * (1:ℕ))), ky * (Real.pi / (2 * (1:ℕ))),
            kz * (Real.pi / (2 * (1:ℕ)))⟩ ∧
        (∀ j : ℤ, |(0:ℝ) - kx * (Real.pi / (2 * (1:ℕ)))| ≤ |(0:ℝ) - j * (Real.pi / (2 * (1:ℕ)))|) ∧
        (∀ j : ℤ, |(0:ℝ) - ky * (Real.pi / (2 * (1:ℕ)))| ≤ |(0:ℝ) - j * (Real.pi / (2 * (1:ℕ)))|) ∧
        (∀ j : ℤ, |(0:ℝ) - kz * (Real.pi / (2 * (1:ℕ)))| ≤ |(0:ℝ) - j * (Real.pi / (2 * (1:ℕ)))|) :=
  ⟨le_refl 1, snap_rotation_quantizes 1 (le_refl 1) ⟨0, 0, 0⟩⟩

/-- C4: `change_euler` adds `ex` to the Euler x component and `ey` to the
Euler z component, and moves the y (roll) component towards its decay
target — `copysign(pi, y)` when `always_up` is requested with an
upside-down view or when `|y| > pi/2`, the origin otherwise — shrinking the
distance to that target exactly by the factor `2^(-|ez|)`. -/
theorem change_euler_spec (e : Euler) (ex ey ez : ℝ) (always_up : Bool) (up_z : ℝ) :
    (change_euler e ex ey ez always_up up_z).x = e.x + ex ∧
    (change_euler e ex ey ez always_up up_z).z = e.z + ey ∧
    |(change_euler e ex ey ez always_up up_z).y -
        (if (always_up = true ∧ up_z < 0) ∨ Real.pi * 0.5 < |e.y| then
          copysign Real.pi e.y else 0)| =
      |e.y - (if (always_up = true ∧ up_z < 0) ∨ Real.pi * 0.5 < |e.y| then
          copysign Real.pi e.y else 0)| * (2:ℝ) ^ (-|ez|) := by
  have hf : (0:ℝ) ≤ (2:ℝ) ^ (-|ez|) := Real.rpow_nonneg (by norm_num) _
  refine ⟨rfl, rfl, ?_⟩
  unfold change_euler
  split_ifs with h
  · have : (copysign Real.pi e.y) - ((copysign Real.pi e.y) - e.y) * (2:ℝ) ^ (-|ez|) -
        copysign Real.pi e.y = -((copysign Real.pi e.y - e.y) * (2:ℝ) ^ (-|ez|)) := by
      ring
    rw [this, abs_neg, abs_mul, abs_of_nonneg hf, abs_sub_comm (copysign Real.pi e.y) e.y]
  · rw [sub_zero, sub_zero, abs_mul, abs_of_nonneg hf]

/-! ## Walk-physics velocity integration
(`MouselookNavigation.calc_abs_speed`, gravity branch) -/

/-- C5 counterexample: on a frame where the jump key is held (not freshly
pressed) and no collision occurs, the code does not set
`v.z := v.z * 0.999 + g * dt`: starting from zero velocity with `dt = 1`,
`jump_height = 2`, it produces `2.991`, not `-9.91`, because a held jump
also damps a negative `v.z` by `0.9` and adds `(|g| + jump_height) * dt`
every held frame. -/
theorem calc_velocity_claim_false :
    (calc_velocity true ⟨0, 0, 0⟩ 1 2 true true false).z ≠
      (0 : ℚ) * 0.999 + (-9.91) * 1 := by
  have habs : |(991 / 100 : ℚ)| = 991 / 100 := abs_of_pos (by norm_num)
  norm_num [calc_velocity, habs]

/-- C5 (amended): `use_gravity = false` resets the velocity to zero; a
collision resets it to zero; with gravity and no jump key the vertical
velocity is exactly `v.z * 0.999 - 9.91 * dt`; with the jump key held the
base integration is followed by the `0.9` damping of a downward velocity,
`jump_height` added only on the press frame, and `(9.91 + jump_height) * dt`
added on every held frame. -/
theorem calc_velocity_spec (v : Vec3) (dt jh : ℚ) (ij pj : Bool) :
    calc_velocity false v dt jh ij pj false = ⟨0, 0, 0⟩ ∧
    calc_velocity false v dt jh ij pj true = ⟨0, 0, 0⟩ ∧
    calc_velocity true v dt jh ij pj true = ⟨0, 0, 0⟩ ∧
    calc_velocity true v dt jh false pj false =
      ⟨v.x, v.y, v.z * 0.999 + (-9.91) * dt⟩ ∧
    calc_velocity true v dt jh true pj false =
      ⟨v.x, v.y,
        (if v.z * 0.999 + (-9.91) * dt < 0 then (v.z * 0.999 + (-9.91) * dt) * 0.9
          else v.z * 0.999 + (-9.91) * dt) +
        (if pj = false then jh else 0) + (|(-9.91 : ℚ)| + jh) * dt⟩ := by
  refine ⟨rfl, rfl, rfl, rfl, ?_⟩
  cases pj
  · rfl
  · have hL : calc_velocity true v dt jh true true false =
        ⟨v.x, v.y,
          (if v.z * 0.999 + (-9.91) * dt < 0 then (v.z * 0.999 + (-9.91) * dt) * 0.9
            else v.z * 0.999 + (-9.91) * dt) + (|(-9.91 : ℚ)| + jh) * dt⟩ := rfl
    have hif : (if ((true : Bool) = false) then jh else 0) = 0 := if_neg (by simp)
    rw [hL, hif, add_zero]

/-! ## Fletcher checksum (dairin0d/utils_text.py) -/

theorem fletcher_go_lt (m : ℕ) (hm : 0 < m) :
    ∀ (k : ℕ) (data : List ℕ), data.length ≤ k → ∀ (nb s1 s2 : ℕ),
      s1 < m → s2 < m →
      (fletcher_go nb m data s1 s2).1 < m ∧ (fletcher_go nb m data s1 s2).2 < m := by
  intro k
  induction k with
  | zero =>
    intro data hlen nb s1 s2 h1 h2
    have hd : data = [] := List.eq_nil_of_length_eq_zero (Nat.le_zero.mp hlen)
    subst hd
    simp only [fletcher_go]
    exact ⟨h1, h2⟩
  | succ k ih =>
    intro data hlen nb s1 s2 h1 h2
    cases data with
    | nil =>
      simp only [fletcher_go]
      exact ⟨h1, h2⟩
    | cons b rest =>
      cases nb with
      | zero =>
        simp only [fletcher_go]
        exact ⟨h1, h2⟩
      | succ nb =>
        rw [fletcher_go]
        apply ih
        · simp only [List.length_drop, List.length_cons]
          simp only [List.length_cons] at hlen
          omega
        · exact Nat.mod_lt _ hm
        · exact Nat.mod_lt _ hm

/-- C10: for `n` in `{16, 32, 64}` the checksum is strictly below `2^n`:
both running sums stay below `m = 2^(8*nbytes) - 1` with
`nbytes = n/16`, and the result `sum1 + sum2 * (m+1)` is below
`(m+1)^2 = 2^n`. -/
theorem fletcher_lt (data : List ℕ) (n : ℕ) (hn : n = 16 ∨ n = 32 ∨ n = 64) :
    fletcher data n < 2 ^ n := by
  rcases hn with h | h | h <;> subst h
  · have hb := fletcher_go_lt 255 (by norm_num) data.length data (le_refl _) 1 0 0
      (by norm_num) (by norm_num)
    have he : fletcher data 16 =
        (fletcher_go 1 255 data 0 0).1 + (fletcher_go 1 255 data 0 0).2 * 256 := rfl
    rw [he]
    have : (2:ℕ) ^ 16 = 65536 := by norm_num
    omega
  · have hb := fletcher_go_lt 65535 (by norm_num) data.length data (le_refl _) 2 0 0
      (by norm_num) (by norm_num)
    have he : fletcher data 32 =
        (fletcher_go 2 65535 data 0 0).1 + (fletcher_go 2 65535 data 0 0).2 * 65536 := rfl
    rw [he]
    have : (2:ℕ) ^ 32 = 4294967296 := by norm_num
    omega
  · have hb := fletcher_go_lt 4294967295 (by norm_num) data.length data (le_refl _) 4 0 0
      (by norm_num) (by norm_num)
    have he : fletcher data 64 =
        (fletcher_go 4 4294967295 data 0 0).1 +
          (fletcher_go 4 4294967295 data 0 0).2 * 4294967296 := rfl
    rw [he]
    have : (2:ℕ) ^ 64 = 18446744073709551616 := by norm_num
    omega

/-- Witness for C10 at `data = [1, 2, 3]`, `n = 16`. -/
theorem fletcher_lt_witness :
    ((16 = 16 ∨ 16 = 32 ∨ 16 = 64) ∧ fletcher [1, 2, 3] 16 < 2 ^ 16) :=
  ⟨Or.inl rfl, fletcher_lt [1, 2, 3] 16 (Or.inl rfl)⟩

/-! ## Clipboard matrix serialization (cut_copy_paste/__init__.py)

A `mathutils.Matrix` is modelled as its list of rows (lists of exact
rationals).  The `assert` in `deserialize_matrix` is modelled by an
`Option`: `none` means the assertion fails. -/

/-- C3: `serialize_matrix` emits exactly the first three rows of a 4x4
matrix; on matrices whose last row is `(0,0,0,1)` deserialization inverts
serialization; and `deserialize_matrix` satisfies its internal assertion
(returns a 4x4 matrix) on any input of 3 or 4 rows of length 4. -/
theorem serialize_matrix_roundtrip (m : List (List ℚ)) (hlen : m.length = 4)
    (hrows : ∀ r ∈ m, r.length = 4) (hlast : m.getLast? = some [0, 0, 0, 1]) :
    (∃ r0 r1 r2 r3 : List ℚ, m = [r0, r1, r2, r3] ∧ serialize_matrix m = [r0, r1, r2]) ∧
    deserialize_matrix (serialize_matrix m) = some m ∧
    (∀ rows : List (List ℚ), rows.length = 3 ∨ rows.length = 4 →
      (∀ r ∈ rows, r.length = 4) →
      ∃ m' : List (List ℚ), deserialize_matrix rows = some m' ∧ m'.length = 4 ∧
        (∀ r ∈ m', r.length = 4)) := by
  rcases m with _ | ⟨r0, _ | ⟨r1, _ | ⟨r2, _ | ⟨r3, _ | ⟨r4, tail⟩⟩⟩⟩⟩ <;>
    simp only [List.length_nil, List.length_cons] at hlen <;> try omega
  have h0 : r0.length = 4 := hrows r0 (by simp)
  have h3 : r3 = [0, 0, 0, 1] := by
    simp [List.getLast?] at hlast
    exact hlast
  constructor
  · exact ⟨r0, r1, r2, r3, rfl, rfl⟩
  constructor
  · subst h3
    simp [serialize_matrix, deserialize_matrix, h0]
  · intro rows h34 hr
    rcases h34 with h3r | h4r
    · rcases rows with _ | ⟨a, _ | ⟨b, _ | ⟨c, _ | ⟨d, tl⟩⟩⟩⟩ <;>
        simp only [List.length_nil, List.length_cons] at h3r <;> try omega
      have ha : a.length = 4 := hr a (by simp)
      refine ⟨[a, b, c, [0, 0, 0, 1]], ?_, by simp, ?_⟩
      · simp [deserialize_matrix, ha]
      · intro r hrr
        simp only [List.mem_cons, List.not_mem_nil, or_false] at hrr
        rcases hrr with rfl | rfl | rfl | rfl
        · exact hr _ (by simp)
        · exact hr _ (by simp)
        · exact hr _ (by simp)
        · rfl
    · rcases rows with _ | ⟨a, _ | ⟨b, _ | ⟨c, _ | ⟨d, _ | ⟨e, tl⟩⟩⟩⟩⟩ <;>
        simp only [List.length_nil, List.length_cons] at h4r <;> try omega
      have ha : a.length = 4 := hr a (by simp)
      refine ⟨[a, b, c, d], ?_, by simp, hr⟩
      simp [deserialize_matrix, ha]

/-- Witness for C3 at the identity matrix. -/
theorem serialize_matrix_roundtrip_witness :
    ([[1, 0, 0, 0], [0, 1, 0, 0], [0, 0, 1, 0], [0, 0, 0, 1]] :
        List (List ℚ)).length = 4 ∧
      deserialize_matrix (serialize_matrix
          [[1, 0, 0, 0], [0, 1, 0, 0], [0, 0, 1, 0], [0, 0, 0, 1]]) =
        some [[1, 0, 0, 0], [0, 1, 0, 0], [0, 0, 1, 0], [0, 0, 0, 1]] :=
  ⟨by decide,
    (serialize_matrix_roundtrip
      [[1, 0, 0, 0], [0, 1, 0, 0], [0, 0, 1, 0], [0, 0, 0, 1]]
      (by decide) (by decide) (by decide)).2.1⟩

/-! ## Copy and Cut operators (cut_copy_paste/__init__.py)

Blender objects are modelled by an identifier and their `type` string;
`bpy.ops` calls made by `OperatorCut.execute` are recorded as a trace.
The clipboard payload written by `write_clipboard` is abstracted to the
set of objects it serializes. -/

theorem active_mem_filter (objs : Finset BObject) (a : BObject) :
    a ∈ filter_edit_mode_objects objs a := by
  unfold filter_edit_mode_objects
  split_ifs <;> simp

/-- C7: `poll` accepts exactly the modes enabled in the preferences;
`execute` cancels without writing to the clipboard when the active type
has no preprocess method in an edit mode (error report) or when the
object-mode selection is empty (warning report); every cancellation leaves
the clipboard unwritten; otherwise the payload is written and the operator
finishes.  (In edit modes the filtered selection always contains the
active object, so the empty-selection cancellation only occurs in OBJECT
mode.) -/
theorem operator_copy_spec (ctx : CopyContext) (pref_modes : List String) :
    (OperatorCopy_poll ctx.mode pref_modes = true ↔ ctx.mode ∈ pref_modes) ∧
    (ctx.mode ≠ "OBJECT" → has_preprocess ctx.active_object.type = false →
      OperatorCopy_execute ctx = ⟨.ERROR, none, .CANCELLED⟩) ∧
    (ctx.mode = "OBJECT" → ctx.selected_objects = ∅ →
      OperatorCopy_execute ctx = ⟨.WARNING, none, .CANCELLED⟩) ∧
    ((OperatorCopy_execute ctx).result = .CANCELLED →
      (OperatorCopy_execute ctx).clipboard = none) ∧
    (ctx.mode = "OBJECT" → ctx.selected_objects ≠ ∅ →
      OperatorCopy_execute ctx = ⟨.INFO, some ctx.selected_objects, .FINISHED⟩) ∧
    (ctx.mode ≠ "OBJECT" → has_preprocess ctx.active_object.type = true →
      OperatorCopy_execute ctx =
        ⟨.INFO, some (filter_edit_mode_objects ctx.selected_objects ctx.active_object),
          .FINISHED⟩) := by
  have hne : filter_edit_mode_objects ctx.selected_objects ctx.active_object ≠ ∅ := by
    intro h
    have := active_mem_filter ctx.selected_objects ctx.active_object
    rw [h] at this
    exact absurd this (Finset.not_mem_empty _)
  refine ⟨?_, ?_, ?_, ?_, ?_, ?_⟩
  · simp [OperatorCopy_poll]
  · intro hm hp
    simp [OperatorCopy_execute, hm, hp]
  · intro hm hsel
    simp [OperatorCopy_execute, hm, hsel]
  · intro hc
    unfold OperatorCopy_execute at hc ⊢
    split_ifs at hc ⊢ with h1 h2 h3 <;> simp_all
  · intro hm hsel
    simp [OperatorCopy_execute, hm, hsel]
  · intro hm hp
    simp [OperatorCopy_execute, hm, hp, hne]

/-- Witness for C7: copying in mesh edit mode with an empty selection
writes the filtered selection (just the active object) and finishes;
copying in object mode with an empty selection cancels with a warning. -/
theorem operator_copy_spec_witness :
    OperatorCopy_execute ⟨"EDIT_MESH", ∅, ⟨0, "MESH"⟩⟩ =
      ⟨.INFO, some (filter_edit_mode_objects ∅ ⟨0, "MESH"⟩), .FINISHED⟩ ∧
    OperatorCopy_execute ⟨"OBJECT", ∅, ⟨0, "MESH"⟩⟩ =
      ⟨.WARNING, none, .CANCELLED⟩ :=
  ⟨(operator_copy_spec ⟨"EDIT_MESH", ∅, ⟨0, "MESH"⟩⟩ []).2.2.2.2.2
      (by decide) (by decide),
    (operator_copy_spec ⟨"OBJECT", ∅, ⟨0, "MESH"⟩⟩ []).2.2.1 rfl rfl⟩

/-- C6: `OperatorCut.poll` coincides with `OperatorCopy.poll`; whenever
`execute` completes, its first `bpy.ops` call is the copy operator with
`mode='COPY'` and the returned status is `{'FINISHED'}`; and the deletion
performed after the copy is the one selected by the active object's type:
`object.delete` in OBJECT mode, and the mesh / curve / surface / metaball /
grease-pencil / armature element deletion in the corresponding edit
modes. -/
theorem operator_cut_spec (ctx_mode : String) (pref_modes : List String)
    (active_type : String) (msm : Bool × Bool × Bool) :
    (OperatorCut_poll ctx_mode pref_modes = true ↔
      OperatorCopy_poll ctx_mode pref_modes = true) ∧
    (∀ ops st, OperatorCut_execute ctx_mode active_type msm = some (ops, st) →
      ops.head? = some (.view3d_copy "COPY") ∧ st = .FINISHED) ∧
    (ctx_mode = "OBJECT" →
      OperatorCut_execute ctx_mode active_type msm =
        some ([.view3d_copy "COPY", .object_delete, .ed_undo_push], .FINISHED)) ∧
    (ctx_mode ≠ "OBJECT" →
      OperatorCut_execute ctx_mode "MESH" msm =
        some ([.view3d_copy "COPY", .mesh_delete (get_mesh_delete_type msm),
          .ed_undo_push], .FINISHED) ∧
      OperatorCut_execute ctx_mode "CURVE" msm =
        some ([.view3d_copy "COPY", .curve_delete "VERT", .ed_undo_push], .FINISHED) ∧
      OperatorCut_execute ctx_mode "SURFACE" msm =
        some ([.view3d_copy "COPY", .curve_delete "VERT", .ed_undo_push], .FINISHED) ∧
      OperatorCut_execute ctx_mode "META" msm =
        some ([.view3d_copy "COPY", .mball_delete_metaelems, .ed_undo_push], .FINISHED) ∧
      OperatorCut_execute ctx_mode "GPENCIL" msm =
        some ([.view3d_copy "COPY", .gpencil_delete "POINTS", .ed_undo_push], .FINISHED) ∧
      OperatorCut_execute ctx_mode "ARMATURE" msm =
        some ([.view3d_copy "COPY", .armature_delete, .ed_undo_push], .FINISHED)) := by
  refine ⟨Iff.rfl, ?_, ?_, ?_⟩
  · intro ops st hex
    unfold OperatorCut_execute at hex
    rcases hop : cut_process ctx_mode active_type msm with _ | op
    · rw [hop] at hex
      exact absurd hex (by simp)
    · rw [hop] at hex
      simp only [Option.some.injEq, Prod.mk.injEq] at hex
      obtain ⟨hops, hst⟩ := hex
      subst hops
      exact ⟨rfl, hst.symm⟩
  · intro hm
    simp [OperatorCut_execute, cut_process, hm]
  · intro hm
    refine ⟨?_, ?_, ?_, ?_, ?_, ?_⟩ <;> simp [OperatorCut_execute, cut_process, hm]

/-- Witness for C6: cutting in object mode and in mesh edit mode
(vertex select). -/
theorem operator_cut_spec_witness :
    OperatorCut_execute "OBJECT" "MESH" (true, true, true) =
      some ([.view3d_copy "COPY", .object_delete, .ed_undo_push], .FINISHED) ∧
    OperatorCut_execute "EDIT_MESH" "MESH" (true, false, false) =
      some ([.view3d_copy "COPY",
        .mesh_delete (get_mesh_delete_type (true, false, false)),
        .ed_undo_push], .FINISHED) :=
  ⟨(operator_cut_spec "OBJECT" [] "MESH" (true, true, true)).2.2.1 rfl,
    ((operator_cut_spec "EDIT_MESH" [] "MESH" (true, false, false)).2.2.2
      (by decide)).1⟩

end BlenderScripts
